import Mathlib

/-!
# Formal model of `File_organizer.py`

A shallow embedding of the core logic of the file-organizer application:
the classifier (extension-based category matching with an ignore list),
the organize loop (`organize_files`), the undo machinery (`undo_changes`
over `undo_stack`), and the configuration operations (`add_category`,
`save_config`, config load).

Python string primitives are modelled on the character list underlying
`String`:
* `str.lower()`  ↦ `pyLower` (character-wise `Char.toLower`),
* `str.endswith` ↦ `pyEndsWith` (suffix test on characters),
* `str.startswith` ↦ `pyStartsWith` (prefix test on characters).

The filesystem visible to the program is a single selected directory:
its top-level regular files (`rootFiles`, in listing order) and its
subfolders with their contained file names (`folders`).  Paths
`dir/name` and `dir/folder/name` are represented by `name` and
`(folder, name)` respectively, since all activity happens under the one
selected directory.  A `shutil.move` is modelled as failing (raising
`OSError`) exactly when the destination is unavailable: the destination
folder does not exist or already contains a file of that name.
-/

/-- Python `s.lower()`: lowercase every character. -/
def pyLower (s : String) : String := String.mk (s.data.map Char.toLower)

/-- Python `s.endswith(p)`: `p` is a suffix of `s`. -/
def pyEndsWith (s p : String) : Bool := p.data.isSuffixOf s.data

/-- Python `s.startswith(p)`: `p` is a prefix of `s`. -/
def pyStartsWith (s p : String) : Bool := p.data.isPrefixOf s.data

/-- `any(filename.lower().endswith(ext) for ext in extensions)`
(source line 214). -/
def matchesCategory (filename : String) (exts : List String) : Bool :=
  exts.any (fun ext => pyEndsWith (pyLower filename) ext)

/-- The default category rules (source lines 14–24): ordered mapping
from category name to extension list. -/
def default_file_extensions : List (String × List String) :=
  [("Images", [".jpg", ".jpeg", ".png", ".gif", ".bmp", ".tiff", ".svg", ".webp"]),
   ("Documents", [".pdf", ".docx", ".txt", ".xlsx", ".pptx", ".odt", ".rtf", ".csv"]),
   ("Audio", [".mp3", ".wav", ".aac", ".flac", ".ogg", ".m4a"]),
   ("Videos", [".mp4", ".avi", ".mkv", ".mov", ".wmv", ".flv", ".webm"]),
   ("Archives", [".zip", ".rar", ".tar", ".gz", ".7z", ".bz2"]),
   ("Scripts", [".py", ".js", ".sh", ".bat", ".rb", ".php", ".html", ".css"]),
   ("Executables", [".exe", ".msi", ".dmg", ".app"]),
   ("Fonts", [".ttf", ".otf", ".woff", ".woff2"]),
   ("Torrents", [".torrent"])]

/-- The default raw ignore list (source line 25). -/
def default_ignore_raw : List String := ["desktop.ini", "Thumbs.db", ".DS_Store"]

/-- The runtime ignore list: lowercased at load
(`[item.lower() for item in config['ignore']]`, source line 44). -/
def default_ignore_list : List String := default_ignore_raw.map pyLower

example : matchesCategory "a.jpg" [".jpg", ".jpeg"] = true := by decide

example : matchesCategory "Archive.TAR.GZ" [".gz"] = true := by decide

example : matchesCategory "a.txt" [".TXT"] = false := by decide

example : (pyLower "Thumbs.db" ∈ default_ignore_list) = True := by decide

/-! ## The classifier -/

/-- Result of classifying one filename (spec §3 `ClassificationResult`,
with `Ignored` for files skipped at source line 210). -/
inductive ClassificationResult where
  | Ignored : ClassificationResult
  | Matched : String → ClassificationResult
  | Unmatched : ClassificationResult
deriving DecidableEq

/-- The first-match loop over categories (the `for folder, extensions in
file_extensions.items()` loop of source lines 213–214, restricted to the
match decision): the first category whose extension list matches. -/
def tryCategoriesDry (filename : String) :
    List (String × List String) → Option String
  | [] => none
  | (c, exts) :: rest =>
    if matchesCategory filename exts then some c
    else tryCategoriesDry filename rest

/-- The classifier (source lines 210–214): a filename is ignored when its
lowercased form is in the (lowercased) ignore list or it starts with `.`;
otherwise the first category whose extension list matches wins; otherwise
unmatched. -/
def classify (filename : String) (rules : List (String × List String))
    (ignore : List String) : ClassificationResult :=
  if pyLower filename ∈ ignore ∨ pyStartsWith filename "." = true then .Ignored
  else
    match tryCategoriesDry filename rules with
    | some c => .Matched c
    | none => .Unmatched

/-! ## The filesystem model and the organize loop -/

/-- The selected directory's contents: its top-level regular files (in
listing order) and its immediate subfolders with the files they contain. -/
structure FS where
  rootFiles : List String
  folders : String → Option (List String)

/-- Pointwise update of the folder map. -/
def fsUpdate (folders : String → Option (List String)) (c : String)
    (v : Option (List String)) : String → Option (List String) :=
  fun x => if x = c then v else folders x

/-- The application state the organize/undo operations act on:
`selected_directory` (source line 29), whether that directory exists,
its contents, and `undo_stack` (source line 30).  A move record
`(name, folder)` stands for the pair of paths
`(dir/name, dir/folder/name)` appended at source line 221. -/
structure AppState where
  selected_directory : Option String
  dirExists : Bool
  fs : FS
  undo_stack : List (List (String × String))

/-- `shutil.move(dir/name, dir/folder/name)` (source line 220): succeeds
when the destination folder exists and does not already contain `name`
(otherwise `OSError`, modelled as `none`); on success the file leaves the
root listing and is appended to the folder's contents. -/
def moveFile (fs : FS) (filename folder : String) : Option FS :=
  match fs.folders folder with
  | none => none
  | some files =>
    if filename ∈ files then none
    else some ⟨fs.rootFiles.erase filename,
               fsUpdate fs.folders folder (some (files ++ [filename]))⟩

/-- The inner category loop of a real run (source lines 213–229):
for the first matching category attempt the move; on success break with
the move record; on `OSError` record an error line for the filename and
`continue` — which in the source continues the **inner** loop, so the
next category is tried.  Returns the updated filesystem, the move record
(if any move succeeded) and the error lines in order. -/
def tryCategoriesReal (filename : String) :
    List (String × List String) → FS → FS × Option (String × String) × List String
  | [], fs => (fs, none, [])
  | (c, exts) :: rest, fs =>
    if matchesCategory filename exts then
      match moveFile fs filename c with
      | some fs' => (fs', some (filename, c), [])
      | none =>
        let r := tryCategoriesReal filename rest fs
        (r.1, r.2.1, filename :: r.2.2)
    else tryCategoriesReal filename rest fs

/-- Per-category counts, incremented one category at a time
(`organized_counts[folder] += 1`, source line 227). -/
def bump (c : String) (counts : String → Nat) : String → Nat :=
  fun x => if x = c then counts x + 1 else counts x

/-- Accumulator of the per-file loop of `organize_files`
(source lines 206–233). -/
structure RunAcc where
  fs : FS
  batch : List (String × String)
  counts : String → Nat
  unmatched : List String
  errors : List String

/-- One iteration of the per-file loop (source lines 206–233): skip
non-files, skip ignored/hidden files, then in dry-run mode count the
first matching category (or report unmatched), and in a real run attempt
the moves via `tryCategoriesReal`, recording the move in the batch and
counting on success, reporting the file as unmatched when no category
accepted it. -/
def stepFile (dry_run : Bool) (rules : List (String × List String))
    (ignore : List String) (acc : RunAcc) (filename : String) : RunAcc :=
  if filename ∈ acc.fs.rootFiles then
    if pyLower filename ∈ ignore ∨ pyStartsWith filename "." = true then acc
    else if dry_run then
      match tryCategoriesDry filename rules with
      | some c => { acc with counts := bump c acc.counts }
      | none => { acc with unmatched := acc.unmatched ++ [filename] }
    else
      let r := tryCategoriesReal filename rules acc.fs
      match r.2.1 with
      | some mr =>
        { fs := r.1
          batch := acc.batch ++ [mr]
          counts := bump mr.2 acc.counts
          unmatched := acc.unmatched
          errors := acc.errors ++ r.2.2 }
      | none =>
        { fs := r.1
          batch := acc.batch
          counts := acc.counts
          unmatched := acc.unmatched ++ [filename]
          errors := acc.errors ++ r.2.2 }
  else acc

/-- The subfolder-creation loop (source lines 197–202): for each category,
if the folder path does not exist (`os.path.exists` is false whenever the
selected directory itself does not exist) then — in a real run —
`os.makedirs` creates it, together with any missing parent, so the
selected directory itself comes into existence. -/
def createFolders (rules : List (String × List String)) (fs : FS)
    (dirExists : Bool) : FS × Bool :=
  rules.foldl
    (fun p entry =>
      if p.2 = true ∧ (entry.1 ∈ p.1.rootFiles ∨ (p.1.folders entry.1).isSome = true)
      then p
      else (⟨p.1.rootFiles, fsUpdate p.1.folders entry.1 (some [])⟩, true))
    (fs, dirExists)

/-- How `organize_files` can fail to return a report: the guard at source
lines 187–189, and the uncaught `FileNotFoundError` that `os.listdir`
raises at source line 206 when the selected directory does not exist. -/
inductive OrgError where
  | NoDirectorySelected : OrgError
  | UncaughtFileNotFound : OrgError
deriving DecidableEq

/-- The report assembled by `organize_files`: per-category counts, the
`No category found` lines and the `Error moving` lines. -/
structure OrgReport where
  counts : String → Nat
  unmatched : List String
  errors : List String

/-- `organize_files` (source lines 185–250): require a selected
directory; in a real run create the missing category folders; snapshot
the directory listing; run the per-file loop; append the batch to
`undo_stack` when it is non-empty. -/
def organize (st : AppState) (rules : List (String × List String))
    (ignore : List String) (dry_run : Bool) :
    Except OrgError (OrgReport × AppState) :=
  match st.selected_directory with
  | none => .error .NoDirectorySelected
  | some _ =>
    let fsde := if dry_run then (st.fs, st.dirExists)
                else createFolders rules st.fs st.dirExists
    if fsde.2 = false then .error .UncaughtFileNotFound
    else
      let acc := fsde.1.rootFiles.foldl (stepFile dry_run rules ignore)
        ⟨fsde.1, [], fun _ => 0, [], []⟩
      .ok (⟨acc.counts, acc.unmatched, acc.errors⟩,
        { st with
          fs := acc.fs
          dirExists := fsde.2
          undo_stack := if acc.batch = [] then st.undo_stack
                        else st.undo_stack ++ [acc.batch] })

/-! ## Undo -/

/-- One iteration of the undo loop (source lines 168–178): for a recorded
move `(name, folder)`, if the destination `dir/folder/name` still exists,
move it back to `dir/name` and count it (`shutil.move` back fails with a
caught `OSError` when `dir/name` is occupied again); otherwise skip with
a warning. -/
def undoStep (p : FS × Nat) (rec : String × String) : FS × Nat :=
  match p.1.folders rec.2 with
  | none => p
  | some files =>
    if rec.1 ∈ files then
      if rec.1 ∈ p.1.rootFiles then p
      else (⟨p.1.rootFiles ++ [rec.1],
             fsUpdate p.1.folders rec.2 (some (files.erase rec.1))⟩, p.2 + 1)
    else p

/-- `undo_changes` (source lines 159–183): if `undo_stack` is empty,
return immediately (nothing to undo, no filesystem change); otherwise pop
the most recent batch, process each of its records once, and report the
number of files moved back. -/
def undo_changes (st : AppState) : Option (Nat × AppState) :=
  match st.undo_stack.getLast? with
  | none => none
  | some batch =>
    let r := batch.foldl undoStep (st.fs, 0)
    some (r.2, { st with fs := r.1, undo_stack := st.undo_stack.dropLast })

/-! ## Configuration -/

/-- The persisted configuration document (the JSON file with fields
`categories` and `ignore`, source lines 13–26 and 46–51). -/
structure ConfigDoc where
  categories : List (String × List String)
  ignore : List String
deriving DecidableEq

/-- Loading the configuration (source lines 40–44): `file_extensions`
is the categories mapping as stored; `ignore_list` is the stored ignore
list with every entry lowercased. -/
def loadConfig (doc : ConfigDoc) : List (String × List String) × List String :=
  (doc.categories, doc.ignore.map pyLower)

/-- `save_config` (source lines 46–51): the document written back holds
the in-memory categories mapping and the in-memory (lowercased) ignore
list. -/
def saveConfigDoc (file_extensions : List (String × List String))
    (ignore_list : List String) : ConfigDoc :=
  ⟨file_extensions, ignore_list⟩

/-- In-memory configuration state plus the last persisted document. -/
structure ConfigState where
  file_extensions : List (String × List String)
  ignore_list : List String
  saved : ConfigDoc
deriving DecidableEq

/-- `save_config` acting on the configuration state. -/
def save_config (cs : ConfigState) : ConfigState :=
  { cs with saved := saveConfigDoc cs.file_extensions cs.ignore_list }

/-- `add_category` (source lines 102–108): with a non-empty name not
already a key of `file_extensions`, append the category with an empty
extension list and persist; otherwise do nothing (returned flag
`false`). -/
def add_category (new_cat : String) (cs : ConfigState) : Bool × ConfigState :=
  if new_cat ≠ "" ∧ new_cat ∉ cs.file_extensions.map Prod.fst then
    (true, save_config { cs with
      file_extensions := cs.file_extensions ++ [(new_cat, [])] })
  else (false, cs)

/-! ## Projections for concrete evaluations -/

/-- Root listing of the state an organize call produced. -/
def orgRoot (r : Except OrgError (OrgReport × AppState)) : Option (List String) :=
  match r with
  | .ok p => some p.2.fs.rootFiles
  | .error _ => none

/-- Contents of one folder in the state an organize call produced. -/
def orgFolder (r : Except OrgError (OrgReport × AppState)) (c : String) :
    Option (Option (List String)) :=
  match r with
  | .ok p => some (p.2.fs.folders c)
  | .error _ => none

/-- Undo stack of the state an organize call produced. -/
def orgStack (r : Except OrgError (OrgReport × AppState)) :
    Option (List (List (String × String))) :=
  match r with
  | .ok p => some p.2.undo_stack
  | .error _ => none

/-- One category's count in the report an organize call produced. -/
def orgCount (r : Except OrgError (OrgReport × AppState)) (c : String) :
    Option Nat :=
  match r with
  | .ok p => some (p.1.counts c)
  | .error _ => none

/-- Unmatched list in the report an organize call produced. -/
def orgUnmatched (r : Except OrgError (OrgReport × AppState)) :
    Option (List String) :=
  match r with
  | .ok p => some p.1.unmatched
  | .error _ => none

/-- Error lines in the report an organize call produced. -/
def orgErrors (r : Except OrgError (OrgReport × AppState)) :
    Option (List String) :=
  match r with
  | .ok p => some p.1.errors
  | .error _ => none

/-- Organize (real run) immediately followed by undo. -/
def orgThenUndo (st : AppState) (rules : List (String × List String))
    (ignore : List String) : Option (Nat × AppState) :=
  match organize st rules ignore false with
  | .ok p => undo_changes p.2
  | .error _ => none

/-- Whether an organize call returned a report. -/
def orgIsOk (r : Except OrgError (OrgReport × AppState)) : Bool :=
  match r with
  | .ok _ => true
  | .error _ => false

/-- The state an organize call produced. -/
def orgState (r : Except OrgError (OrgReport × AppState)) : Option AppState :=
  match r with
  | .ok p => some p.2
  | .error _ => none

/-- The accumulator a real organize run of `st` ends the per-file loop
with (source lines 195–233). -/
def runAccOf (st : AppState) (rules : List (String × List String))
    (ignore : List String) : RunAcc :=
  (createFolders rules st.fs st.dirExists).1.rootFiles.foldl
    (stepFile false rules ignore)
    ⟨(createFolders rules st.fs st.dirExists).1, [], fun _ => 0, [], []⟩

/-- The batch a real organize run of `st` assembles (the contents of
`current_batch` after the per-file loop, source lines 195–229). -/
def recordedBatch (st : AppState) (rules : List (String × List String))
    (ignore : List String) : List (String × String) :=
  (runAccOf st rules ignore).batch

/-! ## Replay view of a batch

For the round-trip proofs a successful move is replayed as `applyMove`,
and a whole batch as `applyBatch`; `GoodBatch` states the facts the
organize loop guarantees about the batch it records, relative to the
directory contents before the run. -/

/-- The effect of one successful move on the directory. -/
def applyMove (fs : FS) (r : String × String) : FS :=
  ⟨fs.rootFiles.erase r.1,
   fsUpdate fs.folders r.2 ((fs.folders r.2).map (fun files => files ++ [r.1]))⟩

/-- The effect of a sequence of successful moves. -/
def applyBatch (fs : FS) (batch : List (String × String)) : FS :=
  batch.foldl applyMove fs

/-- The files a batch moved into folder `c`, in move order. -/
def movedTo (c : String) (batch : List (String × String)) : List String :=
  (batch.filter (fun r => r.2 = c)).map Prod.fst

/-- What the organize loop guarantees about a recorded batch, relative to
the pre-run directory `fs`: moved names are distinct, each was a top-level
file, and each destination folder existed and did not yet contain the
name. -/
def GoodBatch (fs : FS) (batch : List (String × String)) : Prop :=
  (batch.map Prod.fst).Nodup ∧
  ∀ r ∈ batch, r.1 ∈ fs.rootFiles ∧
    ∃ orig, fs.folders r.2 = some orig ∧ r.1 ∉ orig

/-! ## Concrete states used in the theorems -/

/-- Rules with a single category. -/
def singleImageRules : List (String × List String) := [("Images", [".jpg"])]

/-- Two categories that both match `.txt` files. -/
def twoTxtRules : List (String × List String) := [("A", [".txt"]), ("B", [".txt"])]

/-- One category matching `.txt` files. -/
def txtRule : List (String × List String) := [("B", [".txt"])]

/-- The spec §8 scenario directory: `a.jpg`, `b.txt`, `c.xyz`,
`Thumbs.db`, no subfolders yet. -/
def scenarioState : AppState :=
  ⟨some "d", true, ⟨["a.jpg", "b.txt", "c.xyz", "Thumbs.db"], fun _ => none⟩, []⟩

/-- A directory whose `Images` folder already contains `a.jpg`, so the
move of the top-level `a.jpg` fails. -/
def collisionState : AppState :=
  ⟨some "d", true,
   ⟨["a.jpg"], fun c => if c = "Images" then some ["a.jpg"] else none⟩, []⟩

/-- A directory with one image and no category folders yet. -/
def freshDirState : AppState :=
  ⟨some "d", true, ⟨["a.jpg"], fun _ => none⟩, []⟩

/-- A directory with one image whose `Images` folder already exists. -/
def preparedDirState : AppState :=
  ⟨some "d", true,
   ⟨["a.jpg"], fun c => if c = "Images" then some [] else none⟩, []⟩

/-- A selected directory that does not exist. -/
def missingDirState : AppState :=
  ⟨some "d", false, ⟨[], fun _ => none⟩, []⟩

/-- A state already holding one recorded batch, about to organize
`f.txt`. -/
def twoBatchState : AppState :=
  ⟨some "d", true, ⟨["f.txt"], fun c => if c = "B" then some [] else none⟩,
   [[("a", "A")]]⟩

/-- Like `twoBatchState` but with an empty undo stack. -/
def oneBatchState : AppState :=
  ⟨some "d", true, ⟨["f.txt"], fun c => if c = "B" then some [] else none⟩, []⟩

/-- A directory where moving `f.txt` into category `A` fails (occupied)
while category `B` would also match and is free. -/
def retryState : AppState :=
  ⟨some "d", true,
   ⟨["f.txt"],
    fun c => if c = "A" then some ["f.txt"] else if c = "B" then some [] else none⟩,
   []⟩

/-- Like `retryState` but with only the failing category configured. -/
def failOnlyState : AppState :=
  ⟨some "d", true,
   ⟨["f.txt"], fun c => if c = "A" then some ["f.txt"] else none⟩, []⟩

/-- A state with nothing recorded to undo. -/
def emptyLedgerState : AppState :=
  ⟨some "d", true, ⟨[], fun _ => none⟩, []⟩

/-- A state holding one batch whose destination still exists. -/
def undoableState : AppState :=
  ⟨some "d", true, ⟨[], fun c => if c = "B" then some ["f.txt"] else none⟩,
   [[("f.txt", "B")]]⟩

/-- A configuration state in which the default categories are loaded and
persisted. -/
def sampleConfig : ConfigState :=
  ⟨default_file_extensions, default_ignore_list,
   ⟨default_file_extensions, default_ignore_list⟩⟩

/-- Load followed by save, as a map on persisted documents. -/
def loadThenSave (doc : ConfigDoc) : ConfigDoc :=
  saveConfigDoc (loadConfig doc).1 (loadConfig doc).2

/-! ## Helper lemmas -/

/-- A list each of whose elements is fixed by `f` is fixed by `map f`. -/
theorem map_fixed {α : Type} (f : α → α) (l : List α)
    (h : ∀ a ∈ l, f a = a) : l.map f = l := by
  induction l with
  | nil => rfl
  | cons x xs ih =>
    simp only [List.map_cons, h x (by simp), ih fun a ha => h a (by simp [ha])]

/-- Characterization of the first matching category. -/
theorem tryCategoriesDry_eq_some (filename : String)
    (rules : List (String × List String)) (c : String) :
    tryCategoriesDry filename rules = some c ↔
      ∃ l₁ exts l₂, rules = l₁ ++ (c, exts) :: l₂ ∧
        matchesCategory filename exts = true ∧
        ∀ q ∈ l₁, matchesCategory filename q.2 = false := by
  induction rules with
  | nil => simp [tryCategoriesDry]
  | cons p rest ih =>
    obtain ⟨pc, pexts⟩ := p
    by_cases hm : matchesCategory filename pexts = true
    · rw [show tryCategoriesDry filename ((pc, pexts) :: rest) = some pc by
        simp [tryCategoriesDry, hm]]
      simp only [Option.some.injEq]
      constructor
      · rintro rfl
        exact ⟨[], pexts, rest, rfl, hm, by simp⟩
      · rintro ⟨l₁, exts, l₂, heq, hexts, hfirst⟩
        cases l₁ with
        | nil =>
          rw [List.nil_append] at heq
          injection heq with h1 _
          exact congrArg Prod.fst h1
        | cons q l₁' =>
          rw [List.cons_append] at heq
          injection heq with h1 _
          have hq := hfirst q (List.mem_cons_self q l₁')
          rw [← h1] at hq
          rw [show (pc, pexts).2 = pexts from rfl, hm] at hq
          exact absurd hq (by simp)
    · rw [show tryCategoriesDry filename ((pc, pexts) :: rest)
          = tryCategoriesDry filename rest by simp [tryCategoriesDry, hm]]
      rw [ih]
      constructor
      · rintro ⟨l₁, exts, l₂, heq, hexts, hfirst⟩
        refine ⟨(pc, pexts) :: l₁, exts, l₂, by simp [heq], hexts, ?_⟩
        rintro q hq
        rcases List.mem_cons.mp hq with h | h
        · rw [h]
          simpa using hm
        · exact hfirst q h
      · rintro ⟨l₁, exts, l₂, heq, hexts, hfirst⟩
        cases l₁ with
        | nil =>
          rw [List.nil_append] at heq
          injection heq with h1 _
          have : pexts = exts := congrArg Prod.snd h1
          rw [this] at hm
          exact absurd hexts hm
        | cons q l₁' =>
          rw [List.cons_append] at heq
          injection heq with _ h2
          exact ⟨l₁', exts, l₂, h2, hexts,
            fun q' hq' => hfirst q' (by simp [hq'])⟩

/-- No category matches exactly when the loop falls through. -/
theorem tryCategoriesDry_eq_none (filename : String)
    (rules : List (String × List String)) :
    tryCategoriesDry filename rules = none ↔
      ∀ q ∈ rules, matchesCategory filename q.2 = false := by
  induction rules with
  | nil => simp [tryCategoriesDry]
  | cons p rest ih =>
    obtain ⟨pc, pexts⟩ := p
    by_cases hm : matchesCategory filename pexts = true
    · rw [show tryCategoriesDry filename ((pc, pexts) :: rest) = some pc by
        simp [tryCategoriesDry, hm]]
      constructor
      · rintro h
        exact absurd h (by simp)
      · rintro h
        have := h (pc, pexts) (by simp)
        rw [show (pc, pexts).2 = pexts from rfl, hm] at this
        exact absurd this (by simp)
    · rw [show tryCategoriesDry filename ((pc, pexts) :: rest)
          = tryCategoriesDry filename rest by simp [tryCategoriesDry, hm]]
      rw [ih]
      constructor
      · rintro h q hq
        rcases List.mem_cons.mp hq with h' | h'
        · rw [h']
          simpa using hm
        · exact h q h'
      · rintro h q hq
        exact h q (by simp [hq])

/-! ## C1 — the classifier -/

/-- C1: a filename is classified `Ignored` exactly when its lowercased
form is in the (lowercased) ignore list — membership of the lowercased
filename in a lowercased list is case-insensitive membership — or the
filename starts with `.`; an ignored file is excluded entirely from the
per-file processing (the report is untouched); otherwise the result is
`Matched c` exactly for the first category `c` in rule order whose
extension set contains a matching suffix, and `Unmatched` exactly when no
category matches.  The first-match characterization implies that at most
one category is matched and that the earlier of two matching categories
wins. -/
theorem classifier_spec (filename : String)
    (rules : List (String × List String)) (ignore : List String) :
    (classify filename rules ignore = .Ignored ↔
      (pyLower filename ∈ ignore ∨ pyStartsWith filename "." = true)) ∧
    (∀ (raw : List String) (f : String),
      pyLower f ∈ raw.map pyLower ↔ ∃ g ∈ raw, pyLower g = pyLower f) ∧
    (∀ c, classify filename rules ignore = .Matched c ↔
      (¬(pyLower filename ∈ ignore ∨ pyStartsWith filename "." = true) ∧
       ∃ l₁ exts l₂, rules = l₁ ++ (c, exts) :: l₂ ∧
         matchesCategory filename exts = true ∧
         ∀ q ∈ l₁, matchesCategory filename q.2 = false)) ∧
    (classify filename rules ignore = .Unmatched ↔
      (¬(pyLower filename ∈ ignore ∨ pyStartsWith filename "." = true) ∧
       ∀ q ∈ rules, matchesCategory filename q.2 = false)) ∧
    (∀ (dry : Bool) (acc : RunAcc),
      (pyLower filename ∈ ignore ∨ pyStartsWith filename "." = true) →
      stepFile dry rules ignore acc filename = acc) := by
  refine ⟨?_, ?_, ?_, ?_, ?_⟩
  · by_cases hig : pyLower filename ∈ ignore ∨ pyStartsWith filename "." = true
    · unfold classify
      rw [if_pos hig]
      simpa using hig
    · unfold classify
      rw [if_neg hig]
      cases h : tryCategoriesDry filename rules <;> simp [hig]
  · intro raw f
    constructor
    · intro h
      exact List.mem_map.mp h
    · rintro ⟨g, hg, hgl⟩
      exact List.mem_map.mpr ⟨g, hg, hgl⟩
  · intro c
    by_cases hig : pyLower filename ∈ ignore ∨ pyStartsWith filename "." = true
    · unfold classify
      rw [if_pos hig]
      simp [hig]
    · unfold classify
      rw [if_neg hig, ← tryCategoriesDry_eq_some]
      cases h : tryCategoriesDry filename rules <;> simp [hig, h]
  · by_cases hig : pyLower filename ∈ ignore ∨ pyStartsWith filename "." = true
    · unfold classify
      rw [if_pos hig]
      simp [hig]
    · unfold classify
      rw [if_neg hig, ← tryCategoriesDry_eq_none]
      cases h : tryCategoriesDry filename rules <;> simp [hig, h]
  · intro dry acc hig
    by_cases hmem : filename ∈ acc.fs.rootFiles
    · unfold stepFile
      rw [if_pos hmem, if_pos hig]
    · unfold stepFile
      rw [if_neg hmem]

/-- Witness for `classifier_spec`: `archive.tar.gz` is matched to the
`Archives` category (first-match data extracted by the theorem), and
`Thumbs.DB` is ignored case-insensitively. -/
theorem classifier_spec_witness :
    (¬(pyLower "archive.tar.gz" ∈ default_ignore_list ∨
        pyStartsWith "archive.tar.gz" "." = true) ∧
     ∃ l₁ exts l₂, default_file_extensions = l₁ ++ ("Archives", exts) :: l₂ ∧
       matchesCategory "archive.tar.gz" exts = true ∧
       ∀ q ∈ l₁, matchesCategory "archive.tar.gz" q.2 = false) ∧
    classify "Thumbs.DB" default_file_extensions default_ignore_list = .Ignored :=
  ⟨((classifier_spec "archive.tar.gz" default_file_extensions
      default_ignore_list).2.2.1 "Archives").mp (by decide),
   (classifier_spec "Thumbs.DB" default_file_extensions
      default_ignore_list).1.mpr (by decide)⟩

/-! ## Unfold lemmas for `organize` -/

/-- A real organize run with a selected directory, spelled out. -/
theorem organize_real_unfold (st : AppState)
    (rules : List (String × List String)) (ignore : List String) (d : String)
    (hsel : st.selected_directory = some d)
    (hde : (createFolders rules st.fs st.dirExists).2 = true) :
    organize st rules ignore false =
      .ok (⟨(runAccOf st rules ignore).counts, (runAccOf st rules ignore).unmatched,
            (runAccOf st rules ignore).errors⟩,
        { st with
          fs := (runAccOf st rules ignore).fs
          dirExists := true
          undo_stack := if recordedBatch st rules ignore = [] then st.undo_stack
                        else st.undo_stack ++ [recordedBatch st rules ignore] }) := by
  simp only [organize, hsel, Bool.false_eq_true, if_false, hde]
  rfl

/-- A real organize run that dies listing a non-existent directory. -/
theorem organize_real_err (st : AppState)
    (rules : List (String × List String)) (ignore : List String) (d : String)
    (hsel : st.selected_directory = some d)
    (hde : (createFolders rules st.fs st.dirExists).2 = false) :
    organize st rules ignore false = .error .UncaughtFileNotFound := by
  simp only [organize, hsel, Bool.false_eq_true, if_false, hde, if_true]

/-- A dry organize run with a selected, existing directory, spelled
out: the per-file loop runs on the unchanged directory contents. -/
theorem organize_dry_unfold (st : AppState)
    (rules : List (String × List String)) (ignore : List String) (d : String)
    (hsel : st.selected_directory = some d)
    (hde : st.dirExists = true) :
    organize st rules ignore true =
      (let acc := st.fs.rootFiles.foldl (stepFile true rules ignore)
        ⟨st.fs, [], fun _ => 0, [], []⟩
      .ok (⟨acc.counts, acc.unmatched, acc.errors⟩,
        { st with
          fs := acc.fs
          dirExists := st.dirExists
          undo_stack := if acc.batch = [] then st.undo_stack
                        else st.undo_stack ++ [acc.batch] })) := by
  simp only [organize, hsel, hde, if_true]
  rfl

/-! ## C5 — the undo ledger is a stack, not a single slot -/

/-- C5 counterexample: organizing `f.txt` while a batch is already held
leaves **both** batches on `undo_stack` — the previous batch is retained,
not replaced, so the ledger holds two batches at once. -/
theorem undo_ledger_counterexample :
    orgStack (organize twoBatchState txtRule [] false)
      = some [[("a", "A")], [("f.txt", "B")]] ∧
    (orgStack (organize twoBatchState txtRule [] false)).map List.length
      ≠ some 1 := by decide

/-- C5 amended: the ledger is a stack — a real organize run appends its
batch to `undo_stack` when the batch is non-empty and leaves the stack
unchanged when the batch is empty; previously recorded batches are
retained beneath it. -/
theorem undo_ledger_stack (st : AppState)
    (rules : List (String × List String)) (ignore : List String)
    (h : orgIsOk (organize st rules ignore false) = true) :
    orgStack (organize st rules ignore false)
      = some (if recordedBatch st rules ignore = [] then st.undo_stack
              else st.undo_stack ++ [recordedBatch st rules ignore]) := by
  cases hsel : st.selected_directory with
  | none =>
    have hko : organize st rules ignore false = .error .NoDirectorySelected := by
      simp only [organize, hsel]
    rw [hko] at h
    exact absurd h (by simp [orgIsOk])
  | some d =>
    by_cases hde : (createFolders rules st.fs st.dirExists).2 = true
    · rw [organize_real_unfold st rules ignore d hsel hde]
      rfl
    · rw [organize_real_err st rules ignore d hsel (by simpa using hde)] at h
      exact absurd h (by simp [orgIsOk])

/-- Witness for `undo_ledger_stack` at a state with an empty stack. -/
theorem undo_ledger_stack_witness :
    orgStack (organize oneBatchState txtRule [] false)
      = some (if recordedBatch oneBatchState txtRule [] = [] then []
              else [] ++ [recordedBatch oneBatchState txtRule []]) :=
  undo_ledger_stack oneBatchState txtRule [] (by decide)

/-! ## C6 — undo consumes the popped batch; empty ledger is a no-op -/

/-- C6: calling undo with an empty `undo_stack` returns immediately with
nothing to undo and touches nothing; with a non-empty stack it pops the
most recent batch unconditionally (the batch is cleared from the ledger
regardless of how many records were actually moved back). -/
theorem undo_oneshot :
    (∀ st : AppState, st.undo_stack = [] → undo_changes st = none) ∧
    (∀ st : AppState, st.undo_stack ≠ [] →
      ∃ n st', undo_changes st = some (n, st') ∧
        st'.undo_stack = st.undo_stack.dropLast) := by
  constructor
  · intro st h
    unfold undo_changes
    rw [h]
    rfl
  · intro st h
    unfold undo_changes
    cases hl : st.undo_stack.getLast? with
    | none => exact absurd (List.getLast?_eq_none_iff.mp hl) h
    | some batch => exact ⟨_, _, rfl, rfl⟩

/-- Witness for `undo_oneshot`: an empty ledger yields no undo, and a
state holding one batch pops down to the empty stack. -/
theorem undo_oneshot_witness :
    undo_changes emptyLedgerState = none ∧
    ∃ n st', undo_changes undoableState = some (n, st') ∧
      st'.undo_stack = [] :=
  ⟨undo_oneshot.1 emptyLedgerState rfl,
   by simpa using undo_oneshot.2 undoableState (by decide)⟩

/-! ## C7 — extension matching is case-insensitive only in the filename -/

/-- C7 counterexample: `.TXT` is a case-insensitive suffix of `a.txt`,
yet the code does not match it — the configured extension string is
compared verbatim against the lowercased filename. -/
theorem extension_case_counterexample :
    pyEndsWith (pyLower "a.txt") (pyLower ".TXT") = true ∧
    matchesCategory "a.txt" [".TXT"] = false := by decide

/-- C7 amended: matching lowercases the filename only — two filenames
with the same lowercase form match exactly the same extension sets, and
a single extension matches exactly when it is verbatim a suffix of the
lowercased filename (so a lowercase-configured extension is matched
case-insensitively in the filename, but an extension containing an
uppercase letter is never matched case-insensitively). -/
theorem extension_matching (f₁ f₂ : String) (exts : List String)
    (h : pyLower f₁ = pyLower f₂) :
    matchesCategory f₁ exts = matchesCategory f₂ exts ∧
    (∀ e, matchesCategory f₁ [e] = true ↔
      pyEndsWith (pyLower f₁) e = true) := by
  constructor
  · unfold matchesCategory
    rw [h]
  · intro e
    simp [matchesCategory]

/-- Witness for `extension_matching`: `A.JPG` and `a.jpg` classify
identically, and `.jpg` matches by lowercased-suffix. -/
theorem extension_matching_witness :
    matchesCategory "A.JPG" [".jpg"] = matchesCategory "a.jpg" [".jpg"] ∧
    (∀ e, matchesCategory "A.JPG" [e] = true ↔
      pyEndsWith (pyLower "A.JPG") e = true) :=
  extension_matching "A.JPG" "a.jpg" [".jpg"] (by decide)

/-! ## C8 — duplicate category names are rejected without mutation -/

/-- C8: `add_category` on a name already present is a validation failure
before any mutation: it returns the failure flag and the configuration
state — the in-memory mapping and the persisted document — entirely
unchanged. -/
theorem add_category_duplicate (cs : ConfigState) (name : String)
    (h : name ∈ cs.file_extensions.map Prod.fst) :
    add_category name cs = (false, cs) := by
  unfold add_category
  rw [if_neg]
  rintro ⟨-, hdup⟩
  exact hdup h

/-- Witness for `add_category_duplicate`: adding `Images` to the default
configuration fails and changes nothing. -/
theorem add_category_duplicate_witness :
    add_category "Images" sampleConfig = (false, sampleConfig) :=
  add_category_duplicate sampleConfig "Images" (by decide)

/-! ## C9 — load/save round-trip lowercases the ignore list -/

/-- C9 counterexample: a persisted document whose ignore list contains
`Thumbs.db` does not round-trip — load lowercases the ignore entries,
and save writes the lowercased list back. -/
theorem config_roundtrip_counterexample :
    loadThenSave ⟨[], ["Thumbs.db"]⟩ ≠ ⟨[], ["Thumbs.db"]⟩ := by decide

/-- C9 amended: load followed by save preserves the categories mapping
exactly and maps the ignore list through lowercasing; the round-trip is
lossless precisely on documents whose ignore entries are already
lowercase. -/
theorem config_roundtrip (doc : ConfigDoc) :
    loadThenSave doc = ⟨doc.categories, doc.ignore.map pyLower⟩ ∧
    ((∀ s ∈ doc.ignore, pyLower s = s) → loadThenSave doc = doc) := by
  constructor
  · rfl
  · intro h
    show ConfigDoc.mk doc.categories (doc.ignore.map pyLower) = doc
    rw [map_fixed pyLower doc.ignore h]

/-- Witness for `config_roundtrip`: an all-lowercase document
round-trips unchanged. -/
theorem config_roundtrip_witness :
    loadThenSave ⟨[("A", [".x"])], ["thumbs.db"]⟩
      = ⟨[("A", [".x"])], ["thumbs.db"]⟩ :=
  (config_roundtrip ⟨[("A", [".x"])], ["thumbs.db"]⟩).2 (by decide)

/-! ## C10 — organize validates selection but not existence -/

/-- C10 counterexample: with a selected directory that does not exist, a
real run does **not** abort with a directory-not-found failure before
mutating: it returns a report and has created the `Images` category
folder (because `os.makedirs` creates missing parents). -/
theorem dir_validation_counterexample :
    missingDirState.dirExists = false ∧
    orgIsOk (organize missingDirState default_file_extensions
      default_ignore_list false) = true ∧
    orgFolder (organize missingDirState default_file_extensions
      default_ignore_list false) "Images" = some (some []) := by decide

/-- C10 amended: the only up-front validation is that a directory is
selected — with none selected, organize fails with `NoDirectorySelected`
before touching anything; there is no existence check: when the selected
directory does not exist a dry run dies with the uncaught listing error
(after mutating nothing), while a real run with at least one category
proceeds (creating the directory and its folders, as the counterexample
shows). -/
theorem organize_validation :
    (∀ (st : AppState) (rules : List (String × List String))
       (ignore : List String) (dry : Bool), st.selected_directory = none →
      organize st rules ignore dry = .error .NoDirectorySelected) ∧
    (∀ (st : AppState) (rules : List (String × List String))
       (ignore : List String) (d : String), st.selected_directory = some d →
      st.dirExists = false →
      organize st rules ignore true = .error .UncaughtFileNotFound) := by
  constructor
  · intro st rules ignore dry h
    simp only [organize, h]
  · intro st rules ignore d h hde
    simp only [organize, h, hde, if_true]

/-- Witness for `organize_validation` at concrete states. -/
theorem organize_validation_witness :
    organize ⟨none, true, ⟨[], fun _ => none⟩, []⟩ default_file_extensions
      default_ignore_list false = .error .NoDirectorySelected ∧
    organize missingDirState default_file_extensions default_ignore_list
      true = .error .UncaughtFileNotFound :=
  ⟨organize_validation.1 _ default_file_extensions default_ignore_list
     false rfl,
   organize_validation.2 missingDirState default_file_extensions
     default_ignore_list "d" rfl rfl⟩

/-! ## C4 — a failed move retries the next category -/

/-- C4: evaluation of the organize loop at the failing input.  With rules
`A ↦ [.txt]`, `B ↦ [.txt]`, top-level `f.txt` and `A/f.txt` already
present, the move into `A` fails — and instead of leaving `f.txt` in
place and moving on to the next file, the caught-error `continue`
resumes the **category** loop: `f.txt` is moved into `B` and recorded in
the batch.  With only the failing category configured, the file stays
put but is additionally reported as having no category. -/
theorem move_failure_eval :
    orgErrors (organize retryState twoTxtRules [] false) = some ["f.txt"] ∧
    orgRoot (organize retryState twoTxtRules [] false) = some [] ∧
    orgFolder (organize retryState twoTxtRules [] false) "B"
      = some (some ["f.txt"]) ∧
    orgStack (organize retryState twoTxtRules [] false)
      = some [[("f.txt", "B")]] ∧
    orgCount (organize retryState twoTxtRules [] false) "B" = some 1 ∧
    orgErrors (organize failOnlyState [("A", [".txt"])] [] false)
      = some ["f.txt"] ∧
    orgUnmatched (organize failOnlyState [("A", [".txt"])] [] false)
      = some ["f.txt"] ∧
    orgRoot (organize failOnlyState [("A", [".txt"])] [] false)
      = some ["f.txt"] := by decide

/-! ## Infrastructure for the round-trip and dry-run proofs -/

/-- Two directory contents with equal components are equal. -/
theorem FS.eq_of (a b : FS) (h1 : a.rootFiles = b.rootFiles)
    (h2 : a.folders = b.folders) : a = b := by
  cases a
  cases b
  cases h1
  cases h2
  rfl

/-- A file not in the current listing is skipped. -/
theorem stepFile_not_mem (dry : Bool) (rules : List (String × List String))
    (ignore : List String) (acc : RunAcc) (f : String)
    (h : f ∉ acc.fs.rootFiles) :
    stepFile dry rules ignore acc f = acc := by
  unfold stepFile
  rw [if_neg h]

/-- An ignored or hidden file is skipped. -/
theorem stepFile_ignored (dry : Bool) (rules : List (String × List String))
    (ignore : List String) (acc : RunAcc) (f : String)
    (h : pyLower f ∈ ignore ∨ pyStartsWith f "." = true) :
    stepFile dry rules ignore acc f = acc := by
  unfold stepFile
  by_cases hmem : f ∈ acc.fs.rootFiles
  · rw [if_pos hmem, if_pos h]
  · rw [if_neg hmem]

/-- Shape of a real-run step on a processed file. -/
theorem stepFile_real (rules : List (String × List String))
    (ignore : List String) (acc : RunAcc) (f : String)
    (hmem : f ∈ acc.fs.rootFiles)
    (hig : ¬(pyLower f ∈ ignore ∨ pyStartsWith f "." = true)) :
    stepFile false rules ignore acc f =
      match (tryCategoriesReal f rules acc.fs).2.1 with
      | some mr =>
        { fs := (tryCategoriesReal f rules acc.fs).1
          batch := acc.batch ++ [mr]
          counts := bump mr.2 acc.counts
          unmatched := acc.unmatched
          errors := acc.errors ++ (tryCategoriesReal f rules acc.fs).2.2 }
      | none =>
        { fs := (tryCategoriesReal f rules acc.fs).1
          batch := acc.batch
          counts := acc.counts
          unmatched := acc.unmatched ++ [f]
          errors := acc.errors ++ (tryCategoriesReal f rules acc.fs).2.2 } := by
  unfold stepFile
  rw [if_pos hmem, if_neg hig, if_neg (by simp : ¬(false = true))]

/-- Shape of a dry-run step on a processed file. -/
theorem stepFile_dry (rules : List (String × List String))
    (ignore : List String) (acc : RunAcc) (f : String)
    (hmem : f ∈ acc.fs.rootFiles)
    (hig : ¬(pyLower f ∈ ignore ∨ pyStartsWith f "." = true)) :
    stepFile true rules ignore acc f =
      match tryCategoriesDry f rules with
      | some c => { acc with counts := bump c acc.counts }
      | none => { acc with unmatched := acc.unmatched ++ [f] } := by
  unfold stepFile
  rw [if_pos hmem, if_neg hig, if_pos rfl]

/-- A successful move is the `applyMove` replay. -/
theorem moveFile_eq_some (fs : FS) (filename folder : String) (fs' : FS)
    (h : moveFile fs filename folder = some fs') :
    ∃ files, fs.folders folder = some files ∧ filename ∉ files ∧
      fs' = applyMove fs (filename, folder) := by
  unfold moveFile at h
  cases hf : fs.folders folder with
  | none =>
    rw [hf] at h
    simp at h
  | some files =>
    rw [hf] at h
    by_cases hmem : filename ∈ files
    · simp only [hmem, if_true] at h
      simp at h
    · simp only [hmem, if_false] at h
      refine ⟨files, rfl, hmem, ?_⟩
      have h' := Option.some.inj h
      rw [← h']
      unfold applyMove
      refine FS.eq_of _ _ rfl ?_
      show fsUpdate fs.folders folder (some (files ++ [filename]))
        = fsUpdate fs.folders folder ((fs.folders folder).map
            (fun files => files ++ [filename]))
      rw [hf]
      rfl

/-- When no category accepted the file, the filesystem is untouched. -/
theorem tryReal_fs_of_none (filename : String)
    (rules : List (String × List String)) : ∀ fs : FS,
    (tryCategoriesReal filename rules fs).2.1 = none →
    (tryCategoriesReal filename rules fs).1 = fs := by
  induction rules with
  | nil =>
    intro fs _
    rfl
  | cons p rest ih =>
    intro fs h
    obtain ⟨c, exts⟩ := p
    by_cases hm : matchesCategory filename exts = true
    · simp only [tryCategoriesReal, hm, if_true] at h ⊢
      cases hmv : moveFile fs filename c with
      | some fs' =>
        rw [hmv] at h
        simp at h
      | none =>
        rw [hmv] at h
        dsimp only at h ⊢
        exact ih fs h
    · simp only [tryCategoriesReal, hm, if_false] at h ⊢
      exact ih fs h

/-- When a category accepted the file, the move is the `applyMove`
replay of a record for this very file, into a folder that existed and
did not contain it. -/
theorem tryReal_some_spec (filename : String)
    (rules : List (String × List String)) : ∀ (fs : FS) (g c : String),
    (tryCategoriesReal filename rules fs).2.1 = some (g, c) →
    g = filename ∧ ∃ files, fs.folders c = some files ∧ filename ∉ files ∧
      (tryCategoriesReal filename rules fs).1 = applyMove fs (filename, c) := by
  induction rules with
  | nil =>
    intro fs g c h
    simp [tryCategoriesReal] at h
  | cons p rest ih =>
    intro fs g c h
    obtain ⟨pc, exts⟩ := p
    by_cases hm : matchesCategory filename exts = true
    · simp only [tryCategoriesReal, hm, if_true] at h ⊢
      cases hmv : moveFile fs filename pc with
      | some fs' =>
        rw [hmv] at h
        dsimp only at h ⊢
        simp only [Option.some.injEq, Prod.mk.injEq] at h
        obtain ⟨hg, hc⟩ := h
        obtain ⟨files, hf, hnot, hfs⟩ := moveFile_eq_some fs filename pc fs' hmv
        subst hg
        subst hc
        exact ⟨rfl, files, hf, hnot, hfs⟩
      | none =>
        rw [hmv] at h
        dsimp only at h ⊢
        exact ih fs g c h
    · simp only [tryCategoriesReal, hm, if_false] at h ⊢
      exact ih fs g c h

/-- Replaying a batch then one more record. -/
theorem applyBatch_append (fs : FS) (b : List (String × String))
    (r : String × String) :
    applyBatch fs (b ++ [r]) = applyMove (applyBatch fs b) r := by
  unfold applyBatch
  rw [List.foldl_append]
  rfl

/-- The root listing after replaying a batch: each moved name erased in
order. -/
theorem applyBatch_rootFiles (batch : List (String × String)) : ∀ fs : FS,
    (applyBatch fs batch).rootFiles
      = batch.foldl (fun l r => l.erase r.1) fs.rootFiles := by
  induction batch with
  | nil =>
    intro fs
    rfl
  | cons r rest ih =>
    intro fs
    unfold applyBatch at ih ⊢
    rw [List.foldl_cons, List.foldl_cons, ih]
    rfl

/-- Folding the per-record erasures equals folding erasures of the moved
names. -/
theorem foldl_erase_fst (batch : List (String × String)) :
    ∀ init : List String,
    batch.foldl (fun l r => l.erase r.1) init
      = (batch.map Prod.fst).foldl (fun l n => l.erase n) init := by
  induction batch with
  | nil =>
    intro init
    rfl
  | cons r rest ih =>
    intro init
    rw [List.foldl_cons, List.map_cons, List.foldl_cons]
    exact ih _

/-- Folding erasures keeps the listing duplicate-free. -/
theorem nodup_foldl_erase (names : List String) : ∀ l : List String,
    l.Nodup → (names.foldl (fun l n => l.erase n) l).Nodup := by
  induction names with
  | nil =>
    intro l h
    exact h
  | cons n ns ih =>
    intro l h
    rw [List.foldl_cons]
    exact ih (l.erase n) (h.erase n)

/-- Membership after folding erasures over a duplicate-free listing. -/
theorem mem_foldl_erase (names : List String) : ∀ l : List String,
    l.Nodup → ∀ x, x ∈ names.foldl (fun l n => l.erase n) l ↔
      x ∈ l ∧ x ∉ names := by
  induction names with
  | nil =>
    intro l _ x
    simp
  | cons n ns ih =>
    intro l h x
    rw [List.foldl_cons, ih (l.erase n) (h.erase n) x, h.mem_erase_iff]
    constructor
    · rintro ⟨⟨hxn, hxl⟩, hxns⟩
      exact ⟨hxl, by simp [hxn, hxns]⟩
    · rintro ⟨hxl, hxns⟩
      simp only [List.mem_cons, not_or] at hxns
      exact ⟨⟨hxns.1, hxl⟩, hxns.2⟩

/-- Membership in the root listing after replaying a batch. -/
theorem applyBatch_mem_rootFiles (batch : List (String × String)) (fs : FS)
    (h : fs.rootFiles.Nodup) (x : String) :
    x ∈ (applyBatch fs batch).rootFiles ↔
      x ∈ fs.rootFiles ∧ x ∉ batch.map Prod.fst := by
  rw [applyBatch_rootFiles, foldl_erase_fst,
    mem_foldl_erase (batch.map Prod.fst) _ h]

/-- The root listing after replaying a batch is duplicate-free. -/
theorem applyBatch_rootFiles_nodup (batch : List (String × String)) (fs : FS)
    (h : fs.rootFiles.Nodup) : (applyBatch fs batch).rootFiles.Nodup := by
  rw [applyBatch_rootFiles, foldl_erase_fst]
  exact nodup_foldl_erase (batch.map Prod.fst) _ h

/-- The names a batch beginning with `r` moved into a folder. -/
theorem movedTo_cons (c : String) (r : String × String)
    (rest : List (String × String)) :
    movedTo c (r :: rest) = if r.2 = c then r.1 :: movedTo c rest
                            else movedTo c rest := by
  unfold movedTo
  by_cases h : r.2 = c
  · rw [List.filter_cons_of_pos (by simp [h]), if_pos h]
    rfl
  · rw [List.filter_cons_of_neg (by simp [h]), if_neg h]

/-- A folder's contents after replaying a batch: the files the batch
moved there, appended in order. -/
theorem applyBatch_folders (batch : List (String × String)) : ∀ (fs : FS)
    (c : String), (applyBatch fs batch).folders c
      = (fs.folders c).map (fun files => files ++ movedTo c batch) := by
  induction batch with
  | nil =>
    intro fs c
    show fs.folders c = (fs.folders c).map (fun files => files ++ movedTo c [])
    cases h : fs.folders c <;> simp [movedTo]
  | cons r rest ih =>
    intro fs c
    have hstep : (applyMove fs r).folders c
        = if c = r.2 then (fs.folders r.2).map (fun files => files ++ [r.1])
          else fs.folders c := rfl
    show (applyBatch (applyMove fs r) rest).folders c = _
    rw [ih, hstep, movedTo_cons]
    by_cases hc : c = r.2
    · rw [if_pos hc, if_pos hc.symm, hc]
      cases hfc : fs.folders r.2 with
      | none => simp
      | some files => simp [List.append_assoc]
    · rw [if_neg hc, if_neg (fun hh => hc hh.symm)]

/-- The undo step's effect does not depend on the running count, which it
increments by the same amount from any start. -/
theorem undoStep_shift (fs : FS) (n : Nat) (r : String × String) :
    (undoStep (fs, n) r).1 = (undoStep (fs, 0) r).1 ∧
    (undoStep (fs, n) r).2 = n + (undoStep (fs, 0) r).2 := by
  unfold undoStep
  cases fs.folders r.2 with
  | none => exact ⟨rfl, rfl⟩
  | some files =>
    dsimp only
    by_cases h1 : r.1 ∈ files
    · by_cases h2 : r.1 ∈ fs.rootFiles
      · simp [h1, h2]
      · simp [h1, h2]
    · simp [h1]

/-- Folding the undo loop from a shifted count. -/
theorem foldUndo_shift (batch : List (String × String)) : ∀ (fs : FS) (n : Nat),
    batch.foldl undoStep (fs, n)
      = ((batch.foldl undoStep (fs, 0)).1,
         n + (batch.foldl undoStep (fs, 0)).2) := by
  induction batch with
  | nil =>
    intro fs n
    rfl
  | cons r rest ih =>
    intro fs n
    rw [List.foldl_cons, List.foldl_cons]
    obtain ⟨h1, h2⟩ := undoStep_shift fs n r
    rw [show undoStep (fs, n) r = ((undoStep (fs, 0) r).1,
        n + (undoStep (fs, 0) r).2) from Prod.ext h1 h2]
    rw [ih _ (n + (undoStep (fs, 0) r).2)]
    rw [show undoStep (fs, 0) r = ((undoStep (fs, 0) r).1,
        (undoStep (fs, 0) r).2) from rfl, ih _ ((undoStep (fs, 0) r).2)]
    rw [Nat.add_assoc]

/-- Erasing an element distinct from `f` commutes with appending `[f]`. -/
theorem erase_append_singleton (l : List String) (a f : String) (h : a ≠ f) :
    (l ++ [f]).erase a = l.erase a ++ [f] := by
  by_cases hm : a ∈ l
  · exact List.erase_append_left [f] hm
  · rw [List.erase_of_not_mem hm, List.erase_append_right [f] hm,
      List.erase_of_not_mem (fun hh => h (List.mem_singleton.mp hh))]

/-- Folding erasures of names other than `f` commutes with appending
`[f]`. -/
theorem foldl_erase_concat (batch : List (String × String)) (f : String) :
    ∀ l : List String, (∀ r ∈ batch, r.1 ≠ f) →
    batch.foldl (fun l r => l.erase r.1) (l ++ [f])
      = batch.foldl (fun l r => l.erase r.1) l ++ [f] := by
  induction batch with
  | nil =>
    intro l _
    rfl
  | cons r rest ih =>
    intro l h
    rw [List.foldl_cons, List.foldl_cons,
      erase_append_singleton l r.1 f (h r (by simp))]
    exact ih _ fun q hq => h q (by simp [hq])

/-- Invariant of the real-run per-file fold: the filesystem is exactly
the replay of the batch recorded so far over the pre-run contents, and
the recorded batch is a `GoodBatch` of the pre-run contents. -/
theorem foldReal_inv (rules : List (String × List String))
    (ignore : List String) :
    ∀ (l : List String) (acc : RunAcc) (fs0 : FS),
      fs0.rootFiles.Nodup →
      acc.fs = applyBatch fs0 acc.batch →
      GoodBatch fs0 acc.batch →
      (l.foldl (stepFile false rules ignore) acc).fs
        = applyBatch fs0 (l.foldl (stepFile false rules ignore) acc).batch ∧
      GoodBatch fs0 (l.foldl (stepFile false rules ignore) acc).batch := by
  intro l
  induction l with
  | nil =>
    intro acc fs0 h0 h1 h2
    exact ⟨h1, h2⟩
  | cons f rest ih =>
    intro acc fs0 h0 h1 h2
    rw [List.foldl_cons]
    by_cases hmem : f ∈ acc.fs.rootFiles
    · by_cases hig : pyLower f ∈ ignore ∨ pyStartsWith f "." = true
      · rw [stepFile_ignored false rules ignore acc f hig]
        exact ih acc fs0 h0 h1 h2
      · rw [stepFile_real rules ignore acc f hmem hig]
        cases hr : (tryCategoriesReal f rules acc.fs).2.1 with
        | none =>
          dsimp only
          refine ih _ fs0 h0 ?_ h2
          show (tryCategoriesReal f rules acc.fs).1 = applyBatch fs0 acc.batch
          rw [tryReal_fs_of_none f rules acc.fs hr]
          exact h1
        | some mr =>
          obtain ⟨g, c⟩ := mr
          obtain ⟨hg, files, hfolder, hnot, hfs⟩ :=
            tryReal_some_spec f rules acc.fs g c hr
          subst hg
          dsimp only
          obtain ⟨hroot0, hnames⟩ :=
            (applyBatch_mem_rootFiles acc.batch fs0 h0 g).mp (h1 ▸ hmem)
          have horig : ∃ orig, fs0.folders c = some orig ∧ g ∉ orig := by
            rw [h1, applyBatch_folders] at hfolder
            cases hf0 : fs0.folders c with
            | none =>
              rw [hf0] at hfolder
              simp at hfolder
            | some orig =>
              rw [hf0] at hfolder
              have hfolder' : orig ++ movedTo c acc.batch = files :=
                Option.some.inj hfolder
              refine ⟨orig, rfl, ?_⟩
              intro hmemo
              exact hnot (hfolder' ▸ List.mem_append_left _ hmemo)
          refine ih _ fs0 h0 ?_ ?_
          · show (tryCategoriesReal g rules acc.fs).1
              = applyBatch fs0 (acc.batch ++ [(g, c)])
            rw [hfs, applyBatch_append, h1]
          · constructor
            · show ((acc.batch ++ [(g, c)]).map Prod.fst).Nodup
              rw [List.map_append]
              refine List.nodup_append.mpr ⟨h2.1, by simp, ?_⟩
              intro a ha haf
              rw [show (([(g, c)].map Prod.fst) : List String) = [g] from rfl,
                List.mem_singleton] at haf
              subst haf
              exact hnames ha
            · intro r hrr
              rcases List.mem_append.mp hrr with hold | hnew
              · exact h2.2 r hold
              · rw [List.mem_singleton] at hnew
                subst hnew
                exact ⟨hroot0, horig⟩
    · rw [stepFile_not_mem false rules ignore acc f hmem]
      exact ih acc fs0 h0 h1 h2

/-- Undoing a `GoodBatch` from the replayed filesystem restores the
directory: the count equals the batch length, every folder regains its
pre-run contents exactly, and the root listing regains exactly the
pre-run names. -/
theorem undo_restores (batch : List (String × String)) : ∀ fs0 : FS,
    fs0.rootFiles.Nodup → GoodBatch fs0 batch →
    (batch.foldl undoStep (applyBatch fs0 batch, 0)).2 = batch.length ∧
    (∀ c, (batch.foldl undoStep (applyBatch fs0 batch, 0)).1.folders c
        = fs0.folders c) ∧
    (∀ x, x ∈ (batch.foldl undoStep (applyBatch fs0 batch, 0)).1.rootFiles
        ↔ x ∈ fs0.rootFiles) := by
  induction batch with
  | nil =>
    intro fs0 h0 hg
    exact ⟨rfl, fun c => rfl, fun x => Iff.rfl⟩
  | cons r rest ih =>
    intro fs0 h0 hg
    obtain ⟨f, c⟩ := r
    have hfrest : f ∉ rest.map Prod.fst := by
      have hh := hg.1
      rw [List.map_cons] at hh
      exact (List.nodup_cons.mp hh).1
    have hrestnodup : (rest.map Prod.fst).Nodup := by
      have hh := hg.1
      rw [List.map_cons] at hh
      exact (List.nodup_cons.mp hh).2
    obtain ⟨hfroot, orig, horig, hforig⟩ := hg.2 (f, c) (by simp)
    have hrest_ne : ∀ q ∈ rest, q.1 ≠ f := by
      intro q hq hqf
      exact hfrest (hqf ▸ List.mem_map_of_mem Prod.fst hq)
    -- the filesystem right after the original run
    have hmid : applyBatch fs0 ((f, c) :: rest)
        = applyBatch (applyMove fs0 (f, c)) rest := rfl
    have hfs1root : (applyMove fs0 (f, c)).rootFiles
        = fs0.rootFiles.erase f := rfl
    have hfs1nodup : (applyMove fs0 (f, c)).rootFiles.Nodup := by
      rw [hfs1root]
      exact h0.erase f
    have hfs1c : (applyMove fs0 (f, c)).folders c = some (orig ++ [f]) := by
      show fsUpdate fs0.folders c ((fs0.folders c).map
        (fun files => files ++ [f])) c = _
      unfold fsUpdate
      rw [if_pos rfl, horig]
      rfl
    have hfolderMid : (applyBatch (applyMove fs0 (f, c)) rest).folders c
        = some ((orig ++ [f]) ++ movedTo c rest) := by
      rw [applyBatch_folders, hfs1c]
      rfl
    have hfmem : f ∈ (orig ++ [f]) ++ movedTo c rest :=
      List.mem_append_left _ (List.mem_append_right _ (by simp))
    have hf_notroot : f ∉ (applyBatch (applyMove fs0 (f, c)) rest).rootFiles := by
      intro hmem
      obtain ⟨hin, -⟩ :=
        (applyBatch_mem_rootFiles rest (applyMove fs0 (f, c)) hfs1nodup f).mp hmem
      rw [hfs1root] at hin
      exact absurd (h0.mem_erase_iff.mp hin).1 (by simp)
    have herase : ((orig ++ [f]) ++ movedTo c rest).erase f
        = orig ++ movedTo c rest := by
      rw [List.append_assoc, List.erase_append_right _ hforig,
        show ([f] ++ movedTo c rest : List String) = f :: movedTo c rest
          from rfl, List.erase_cons_head]
    -- one undo step restores f
    have hstep : undoStep (applyBatch fs0 ((f, c) :: rest), 0) (f, c)
        = (⟨(applyBatch (applyMove fs0 (f, c)) rest).rootFiles ++ [f],
            fsUpdate (applyBatch (applyMove fs0 (f, c)) rest).folders c
              (some (orig ++ movedTo c rest))⟩, 1) := by
      rw [hmid]
      unfold undoStep
      dsimp only
      rw [hfolderMid]
      dsimp only
      rw [if_pos hfmem, if_neg hf_notroot, herase]
    -- the restored base directory, with f re-appended at the end
    have h0' : (fs0.rootFiles.erase f ++ [f]).Nodup := by
      refine List.nodup_append.mpr ⟨h0.erase f, by simp, ?_⟩
      intro a ha haf
      rw [List.mem_singleton] at haf
      exact absurd (h0.mem_erase_iff.mp (haf ▸ ha)).1 (by simp)
    have hg' : GoodBatch ⟨fs0.rootFiles.erase f ++ [f], fs0.folders⟩ rest := by
      refine ⟨hrestnodup, ?_⟩
      intro q hq
      obtain ⟨hqroot, o, ho, hqo⟩ := hg.2 q (by simp [hq])
      refine ⟨?_, o, ho, hqo⟩
      exact List.mem_append_left _
        (h0.mem_erase_iff.mpr ⟨hrest_ne q hq, hqroot⟩)
    -- the state after the first undo step is the replay of the rest
    -- over the restored base
    have hfs2 : (⟨(applyBatch (applyMove fs0 (f, c)) rest).rootFiles ++ [f],
            fsUpdate (applyBatch (applyMove fs0 (f, c)) rest).folders c
              (some (orig ++ movedTo c rest))⟩ : FS)
        = applyBatch ⟨fs0.rootFiles.erase f ++ [f], fs0.folders⟩ rest := by
      refine FS.eq_of _ _ ?_ ?_
      · show (applyBatch (applyMove fs0 (f, c)) rest).rootFiles ++ [f]
          = (applyBatch ⟨fs0.rootFiles.erase f ++ [f], fs0.folders⟩ rest).rootFiles
        rw [applyBatch_rootFiles, applyBatch_rootFiles, hfs1root]
        exact (foldl_erase_concat rest f (fs0.rootFiles.erase f) hrest_ne).symm
      · funext x
        show fsUpdate (applyBatch (applyMove fs0 (f, c)) rest).folders c
            (some (orig ++ movedTo c rest)) x
          = (applyBatch ⟨fs0.rootFiles.erase f ++ [f], fs0.folders⟩ rest).folders x
        rw [applyBatch_folders]
        unfold fsUpdate
        by_cases hx : x = c
        · rw [if_pos hx, hx]
          show some (orig ++ movedTo c rest)
            = (FS.folders ⟨fs0.rootFiles.erase f ++ [f], fs0.folders⟩ c).map
                (fun files => files ++ movedTo c rest)
          show some (orig ++ movedTo c rest)
            = (fs0.folders c).map (fun files => files ++ movedTo c rest)
          rw [horig]
          rfl
        · rw [if_neg hx, applyBatch_folders]
          show ((applyMove fs0 (f, c)).folders x).map
              (fun files => files ++ movedTo x rest)
            = (fs0.folders x).map (fun files => files ++ movedTo x rest)
          have hfs1x : (applyMove fs0 (f, c)).folders x = fs0.folders x := by
            show fsUpdate fs0.folders c ((fs0.folders c).map
              (fun files => files ++ [f])) x = _
            unfold fsUpdate
            rw [if_neg hx]
          rw [hfs1x]
    obtain ⟨ihcount, ihfolders, ihroots⟩ :=
      ih ⟨fs0.rootFiles.erase f ++ [f], fs0.folders⟩ h0' hg'
    have hfold : ((f, c) :: rest).foldl undoStep
          (applyBatch fs0 ((f, c) :: rest), 0)
        = ((rest.foldl undoStep
              (applyBatch ⟨fs0.rootFiles.erase f ++ [f], fs0.folders⟩ rest, 0)).1,
           1 + (rest.foldl undoStep
              (applyBatch ⟨fs0.rootFiles.erase f ++ [f], fs0.folders⟩ rest, 0)).2) := by
      rw [List.foldl_cons, hstep, hfs2, foldUndo_shift]
    rw [hfold]
    refine ⟨?_, ?_, ?_⟩
    · show 1 + (rest.foldl undoStep _).2 = rest.length + 1
      rw [ihcount]
      omega
    · intro c'
      exact ihfolders c'
    · intro x
      rw [ihroots x]
      show x ∈ fs0.rootFiles.erase f ++ [f] ↔ x ∈ fs0.rootFiles
      rw [List.mem_append, List.mem_singleton, h0.mem_erase_iff]
      constructor
      · rintro (⟨-, hx⟩ | rfl)
        · exact hx
        · exact hfroot
      · intro hx
        by_cases hxf : x = f
        · exact Or.inr hxf
        · exact Or.inl ⟨hxf, hx⟩

/-- With every category folder already present and the directory
existing, the folder-creation loop changes nothing. -/
theorem createFolders_noop (rules : List (String × List String)) : ∀ fs : FS,
    (∀ p ∈ rules, (fs.folders p.1).isSome = true) →
    createFolders rules fs true = (fs, true) := by
  induction rules with
  | nil =>
    intro fs _
    rfl
  | cons p rest ih =>
    intro fs h
    unfold createFolders
    rw [List.foldl_cons]
    dsimp only
    rw [if_pos ⟨rfl, Or.inr (h p (by simp))⟩]
    exact ih fs (fun q hq => h q (by simp [hq]))

/-! ## C2 — organize then undo -/

/-- C2 counterexample: organizing a directory with no category folders
creates them, and undo does not remove them — after organize followed by
undo, `a.jpg` is back at top level and the count is 1, but the directory
has gained an `Images` entry it did not have before, so the entry set is
not exactly restored. -/
theorem roundtrip_counterexample :
    freshDirState.fs.folders "Images" = none ∧
    (orgThenUndo freshDirState singleImageRules []).map
      (fun p => (p.1, p.2.fs.rootFiles, (p.2.fs.folders "Images").isSome))
      = some (1, ["a.jpg"], true) := by decide

/-- C2 (amended): when every category folder already exists before the
run (and the listing is duplicate-free), a real organize that records a
non-empty batch followed immediately by undo restores the directory
exactly: undo returns the batch length, every folder regains its
pre-organize contents, and the top-level listing regains exactly its
pre-organize names; and an undo step whose recorded destination no
longer exists (folder gone or file no longer in it) is skipped without
changing anything and without failing. -/
theorem organize_undo_roundtrip :
    (∀ (st : AppState) (rules : List (String × List String))
       (ignore : List String) (d : String),
      st.selected_directory = some d →
      st.dirExists = true →
      (∀ p ∈ rules, (st.fs.folders p.1).isSome = true) →
      st.fs.rootFiles.Nodup →
      recordedBatch st rules ignore ≠ [] →
      ∃ rep st1 n st2,
        organize st rules ignore false = .ok (rep, st1) ∧
        st1.undo_stack = st.undo_stack ++ [recordedBatch st rules ignore] ∧
        undo_changes st1 = some (n, st2) ∧
        n = (recordedBatch st rules ignore).length ∧
        st2.undo_stack = st.undo_stack ∧
        (∀ c, st2.fs.folders c = st.fs.folders c) ∧
        (∀ x, x ∈ st2.fs.rootFiles ↔ x ∈ st.fs.rootFiles)) ∧
    (∀ (fs : FS) (n : Nat) (f c : String), fs.folders c = none →
      undoStep (fs, n) (f, c) = (fs, n)) ∧
    (∀ (fs : FS) (n : Nat) (f c : String) (files : List String),
      fs.folders c = some files → f ∉ files →
      undoStep (fs, n) (f, c) = (fs, n)) := by
  refine ⟨?_, ?_, ?_⟩
  · intro st rules ignore d hsel hde hfolders hnodup hbatch
    have hcf : createFolders rules st.fs st.dirExists = (st.fs, true) := by
      rw [hde]
      exact createFolders_noop rules st.fs hfolders
    have hacc : runAccOf st rules ignore
        = st.fs.rootFiles.foldl (stepFile false rules ignore)
            ⟨st.fs, [], fun _ => 0, [], []⟩ := by
      unfold runAccOf
      rw [hcf]
    have hinv := foldReal_inv rules ignore st.fs.rootFiles
      ⟨st.fs, [], fun _ => 0, [], []⟩ st.fs hnodup rfl
      ⟨List.nodup_nil, by simp⟩
    rw [← hacc] at hinv
    obtain ⟨hfs_eq, hgood⟩ := hinv
    have hfs_eq' : (runAccOf st rules ignore).fs
        = applyBatch st.fs (recordedBatch st rules ignore) := hfs_eq
    have hgood' : GoodBatch st.fs (recordedBatch st rules ignore) := hgood
    have hok := organize_real_unfold st rules ignore d hsel (by rw [hcf])
    rw [if_neg hbatch] at hok
    obtain ⟨hcount, hfolders2, hroots2⟩ :=
      undo_restores (recordedBatch st rules ignore) st.fs hnodup hgood'
    refine ⟨_, _,
      ((recordedBatch st rules ignore).foldl undoStep
        ((runAccOf st rules ignore).fs, 0)).2,
      { st with
        fs := ((recordedBatch st rules ignore).foldl undoStep
          ((runAccOf st rules ignore).fs, 0)).1
        dirExists := true
        undo_stack := (st.undo_stack
          ++ [recordedBatch st rules ignore]).dropLast },
      hok, rfl, ?_, ?_, ?_, ?_, ?_⟩
    · show undo_changes _ = some _
      unfold undo_changes
      dsimp only
      rw [List.getLast?_concat]
    · show ((recordedBatch st rules ignore).foldl undoStep
          ((runAccOf st rules ignore).fs, 0)).2
        = (recordedBatch st rules ignore).length
      rw [hfs_eq']
      exact hcount
    · exact List.dropLast_concat
    · intro c
      show ((recordedBatch st rules ignore).foldl undoStep
          ((runAccOf st rules ignore).fs, 0)).1.folders c = st.fs.folders c
      rw [hfs_eq']
      exact hfolders2 c
    · intro x
      show x ∈ ((recordedBatch st rules ignore).foldl undoStep
          ((runAccOf st rules ignore).fs, 0)).1.rootFiles ↔ x ∈ st.fs.rootFiles
      rw [hfs_eq']
      exact hroots2 x
  · intro fs n f c h
    unfold undoStep
    dsimp only
    rw [h]
  · intro fs n f c files h hnot
    unfold undoStep
    dsimp only
    rw [h]
    dsimp only
    rw [if_neg hnot]

/-- Witness for `organize_undo_roundtrip`: one image, `Images` folder
already present — organize moves it, undo returns 1 and restores the
directory; and an undo step against an empty filesystem is a no-op. -/
theorem organize_undo_roundtrip_witness :
    (∃ rep st1 n st2,
      organize preparedDirState singleImageRules [] false = .ok (rep, st1) ∧
      st1.undo_stack = preparedDirState.undo_stack
        ++ [recordedBatch preparedDirState singleImageRules []] ∧
      undo_changes st1 = some (n, st2) ∧
      n = (recordedBatch preparedDirState singleImageRules []).length ∧
      st2.undo_stack = preparedDirState.undo_stack ∧
      (∀ c, st2.fs.folders c = preparedDirState.fs.folders c) ∧
      (∀ x, x ∈ st2.fs.rootFiles ↔ x ∈ preparedDirState.fs.rootFiles)) ∧
    undoStep (⟨[], fun _ => none⟩, 0) ("f.txt", "B")
      = (⟨[], fun _ => none⟩, 0) :=
  ⟨organize_undo_roundtrip.1 preparedDirState singleImageRules [] "d" rfl rfl
     (by decide) (by decide) (by decide),
   organize_undo_roundtrip.2.1 ⟨[], fun _ => none⟩ 0 "f.txt" "B" rfl⟩

/-- A dry-run fold never changes the filesystem and never records a
move. -/
theorem foldDry_fs_batch (rules : List (String × List String))
    (ignore : List String) : ∀ (l : List String) (acc : RunAcc),
    (l.foldl (stepFile true rules ignore) acc).fs = acc.fs ∧
    (l.foldl (stepFile true rules ignore) acc).batch = acc.batch := by
  intro l
  induction l with
  | nil =>
    intro acc
    exact ⟨rfl, rfl⟩
  | cons f rest ih =>
    intro acc
    rw [List.foldl_cons]
    by_cases hmem : f ∈ acc.fs.rootFiles
    · by_cases hig : pyLower f ∈ ignore ∨ pyStartsWith f "." = true
      · rw [stepFile_ignored true rules ignore acc f hig]
        exact ih acc
      · rw [stepFile_dry rules ignore acc f hmem hig]
        cases tryCategoriesDry f rules with
        | some c =>
          have hh := ih { acc with counts := bump c acc.counts }
          exact ⟨hh.1, hh.2⟩
        | none =>
          have hh := ih { acc with unmatched := acc.unmatched ++ [f] }
          exact ⟨hh.1, hh.2⟩
    · rw [stepFile_not_mem true rules ignore acc f hmem]
      exact ih acc

/-- When every matching category's folder is available for the file, the
real inner loop agrees with the first-match decision: it moves the file
to the first matching category with no error lines. -/
theorem tryReal_agree (filename : String)
    (rules : List (String × List String)) : ∀ fs : FS,
    (∀ p ∈ rules, matchesCategory filename p.2 = true →
      ∃ files, fs.folders p.1 = some files ∧ filename ∉ files) →
    tryCategoriesReal filename rules fs
      = match tryCategoriesDry filename rules with
        | some c => (applyMove fs (filename, c), some (filename, c), [])
        | none => (fs, none, []) := by
  induction rules with
  | nil =>
    intro fs _
    rfl
  | cons p rest ih =>
    intro fs h
    obtain ⟨pc, exts⟩ := p
    by_cases hm : matchesCategory filename exts = true
    · obtain ⟨files, hf, hnot⟩ := h (pc, exts) (by simp) hm
      have hmv : moveFile fs filename pc
          = some (applyMove fs (filename, pc)) := by
        unfold moveFile
        rw [hf]
        dsimp only
        rw [if_neg hnot]
        congr 1
        refine FS.eq_of _ _ rfl ?_
        show fsUpdate fs.folders pc (some (files ++ [filename]))
          = fsUpdate fs.folders pc ((fs.folders pc).map
              (fun fl => fl ++ [filename]))
        rw [hf]
        rfl
      simp only [tryCategoriesReal, tryCategoriesDry, hm, if_true, hmv]
    · simp only [tryCategoriesReal, tryCategoriesDry, hm, if_false]
      exact ih fs (fun q hq hqm => h q (by simp [hq]) hqm)

/-- Lockstep comparison of the real and dry per-file folds: starting
from the same pre-run directory with a duplicate-free listing, with
every category folder existing and no listed file already present in any
category folder, the two folds produce pointwise equal per-category
counts (every real move succeeds at the first matching category, exactly
where the dry run counts). -/
theorem foldReal_dry_counts (rules : List (String × List String))
    (ignore : List String) :
    ∀ (l : List String) (accR accD : RunAcc) (fs0 : FS),
      fs0.rootFiles.Nodup →
      accR.fs = applyBatch fs0 accR.batch →
      GoodBatch fs0 accR.batch →
      (∀ r ∈ accR.batch, r.1 ∉ l) →
      (∀ x ∈ l, x ∈ fs0.rootFiles) →
      l.Nodup →
      (∀ p ∈ rules, (fs0.folders p.1).isSome = true) →
      (∀ p ∈ rules, ∀ x ∈ fs0.rootFiles, x ∉ (fs0.folders p.1).getD []) →
      accD.fs = fs0 →
      (∀ x, accR.counts x = accD.counts x) →
      ∀ x, (l.foldl (stepFile false rules ignore) accR).counts x
          = (l.foldl (stepFile true rules ignore) accD).counts x := by
  intro l
  induction l with
  | nil =>
    intro accR accD fs0 _ _ _ _ _ _ _ _ _ hcounts x
    exact hcounts x
  | cons f rest ih =>
    intro accR accD fs0 h0 h1 h2 hfresh hsub hlnd hex hnocol haccD hcounts x
    rw [List.foldl_cons, List.foldl_cons]
    have hfroot : f ∈ fs0.rootFiles := hsub f (by simp)
    have hfnames : f ∉ accR.batch.map Prod.fst := by
      intro hmem
      obtain ⟨r, hr, hrf⟩ := List.mem_map.mp hmem
      exact hfresh r hr (by simp [hrf])
    have hmemR : f ∈ accR.fs.rootFiles := by
      rw [h1]
      exact (applyBatch_mem_rootFiles accR.batch fs0 h0 f).mpr ⟨hfroot, hfnames⟩
    have hmemD : f ∈ accD.fs.rootFiles := by
      rw [haccD]
      exact hfroot
    by_cases hig : pyLower f ∈ ignore ∨ pyStartsWith f "." = true
    · rw [stepFile_ignored false rules ignore accR f hig,
        stepFile_ignored true rules ignore accD f hig]
      exact ih accR accD fs0 h0 h1 h2
        (fun r hr => fun hmem => hfresh r hr (by simp [hmem]))
        (fun y hy => hsub y (by simp [hy]))
        ((List.nodup_cons.mp hlnd).2) hex hnocol haccD hcounts x
    · have havail : ∀ p ∈ rules, matchesCategory f p.2 = true →
          ∃ files, accR.fs.folders p.1 = some files ∧ f ∉ files := by
        intro p hp _
        obtain ⟨o, ho⟩ := Option.isSome_iff_exists.mp (hex p hp)
        have hfo : f ∉ o := by
          have hh := hnocol p hp f hfroot
          rw [ho] at hh
          exact hh
        have hmoved : f ∉ movedTo p.1 accR.batch := by
          intro hmem
          obtain ⟨r, hr, hrf⟩ := List.mem_map.mp hmem
          exact hfresh r (List.mem_of_mem_filter hr) (by simp [hrf])
        refine ⟨o ++ movedTo p.1 accR.batch, ?_, ?_⟩
        · rw [h1, applyBatch_folders, ho]
          rfl
        · intro hmem
          rcases List.mem_append.mp hmem with hh | hh
          · exact hfo hh
          · exact hmoved hh
      rw [stepFile_real rules ignore accR f hmemR hig,
        stepFile_dry rules ignore accD f hmemD hig,
        tryReal_agree f rules accR.fs havail]
      cases hdry : tryCategoriesDry f rules with
      | none =>
        dsimp only
        refine ih _ _ fs0 h0 ?_ ?_ ?_ ?_
          ((List.nodup_cons.mp hlnd).2) hex hnocol ?_ ?_ x
        · exact h1
        · exact h2
        · exact fun r hr hmem => hfresh r hr (by simp [hmem])
        · exact fun y hy => hsub y (by simp [hy])
        · exact haccD
        · exact hcounts
      | some c =>
        dsimp only
        obtain ⟨l₁, exts, l₂, heq, hextm, -⟩ :=
          (tryCategoriesDry_eq_some f rules c).mp hdry
        have hcrule : (c, exts) ∈ rules := heq ▸ (by simp)
        obtain ⟨o, ho⟩ := Option.isSome_iff_exists.mp (hex (c, exts) hcrule)
        have hfo : f ∉ o := by
          have hh := hnocol (c, exts) hcrule f hfroot
          rw [ho] at hh
          exact hh
        refine ih _ _ fs0 h0 ?_ ?_ ?_
          (fun y hy => hsub y (by simp [hy]))
          ((List.nodup_cons.mp hlnd).2) hex hnocol ?hD ?_ x
        case hD => exact haccD
        · show applyMove accR.fs (f, c) = applyBatch fs0 (accR.batch ++ [(f, c)])
          rw [applyBatch_append, h1]
        · constructor
          · show ((accR.batch ++ [(f, c)]).map Prod.fst).Nodup
            rw [List.map_append]
            refine List.nodup_append.mpr ⟨h2.1, by simp, ?_⟩
            intro a ha haf
            rw [show (([(f, c)].map Prod.fst) : List String) = [f] from rfl,
              List.mem_singleton] at haf
            subst haf
            exact hfnames ha
          · intro r hrr
            rcases List.mem_append.mp hrr with hold | hnew
            · exact h2.2 r hold
            · rw [List.mem_singleton] at hnew
              subst hnew
              exact ⟨hfroot, o, ho, hfo⟩
        · intro r hrr
          rcases List.mem_append.mp hrr with hold | hnew
          · exact fun hmem => hfresh r hold (by simp [hmem])
          · rw [List.mem_singleton] at hnew
            subst hnew
            exact (List.nodup_cons.mp hlnd).1
        · intro y
          show bump c accR.counts y = bump c accD.counts y
          unfold bump
          rw [hcounts y]

/-! ## C3 — dry run -/

/-- C3 counterexample: when `Images/a.jpg` already exists, the dry run
counts the top-level `a.jpg` for `Images` while the real run's move
fails, so the real run moves (and counts) nothing — the dry-run counts
do not always equal what a real run would have moved. -/
theorem dry_run_counterexample :
    orgCount (organize collisionState singleImageRules [] true) "Images"
      = some 1 ∧
    orgCount (organize collisionState singleImageRules [] false) "Images"
      = some 0 := by decide

/-- C3 (amended): a dry run that returns a report changes nothing at
all — the returned state is the input state, so no folder is created, no
file is moved, and nothing is recorded in the undo ledger; and its
per-category counts equal the real run's moved counts whenever every
move of the real run can succeed (every category folder exists, the
listing is duplicate-free, and no listed name already sits in a category
folder) — the counterexample shows the counts differ when a move
fails. -/
theorem dry_run_frame :
    (∀ (st : AppState) (rules : List (String × List String))
       (ignore : List String),
      orgIsOk (organize st rules ignore true) = true →
      orgState (organize st rules ignore true) = some st) ∧
    (∀ (st : AppState) (rules : List (String × List String))
       (ignore : List String) (d : String),
      st.selected_directory = some d →
      st.dirExists = true →
      (∀ p ∈ rules, (st.fs.folders p.1).isSome = true) →
      st.fs.rootFiles.Nodup →
      (∀ p ∈ rules, ∀ x ∈ st.fs.rootFiles, x ∉ (st.fs.folders p.1).getD []) →
      ∀ x, orgCount (organize st rules ignore true) x
          = orgCount (organize st rules ignore false) x) := by
  constructor
  · intro st rules ignore h
    cases hsel : st.selected_directory with
    | none =>
      have hko : organize st rules ignore true = .error .NoDirectorySelected := by
        simp only [organize, hsel]
      rw [hko] at h
      exact absurd h (by simp [orgIsOk])
    | some d =>
      cases hdir : st.dirExists with
      | false =>
        have hko : organize st rules ignore true
            = .error .UncaughtFileNotFound := by
          simp only [organize, hsel, hdir, if_true]
        rw [hko] at h
        exact absurd h (by simp [orgIsOk])
      | true =>
        have hfs : (st.fs.rootFiles.foldl (stepFile true rules ignore)
            ⟨st.fs, [], fun _ => 0, [], []⟩).fs = st.fs :=
          (foldDry_fs_batch rules ignore st.fs.rootFiles _).1
        have hb : (st.fs.rootFiles.foldl (stepFile true rules ignore)
            ⟨st.fs, [], fun _ => 0, [], []⟩).batch = [] :=
          (foldDry_fs_batch rules ignore st.fs.rootFiles _).2
        unfold orgState
        rw [organize_dry_unfold st rules ignore d hsel hdir]
        dsimp only
        rw [hfs, hb, if_pos rfl]
  · intro st rules ignore d hsel hde hfolders hnodup hnocol x
    have hcf : createFolders rules st.fs st.dirExists = (st.fs, true) := by
      rw [hde]
      exact createFolders_noop rules st.fs hfolders
    have hcnt := foldReal_dry_counts rules ignore st.fs.rootFiles
      ⟨st.fs, [], fun _ => 0, [], []⟩ ⟨st.fs, [], fun _ => 0, [], []⟩ st.fs
      hnodup rfl ⟨List.nodup_nil, by simp⟩ (by simp) (fun y hy => hy) hnodup
      hfolders hnocol rfl (fun _ => rfl) x
    have hacc : runAccOf st rules ignore
        = st.fs.rootFiles.foldl (stepFile false rules ignore)
            ⟨st.fs, [], fun _ => 0, [], []⟩ := by
      unfold runAccOf
      rw [hcf]
    unfold orgCount
    rw [organize_dry_unfold st rules ignore d hsel hde,
      organize_real_unfold st rules ignore d hsel (by rw [hcf])]
    dsimp only
    rw [hacc]
    rw [hcnt]

/-- Witness for `dry_run_frame`: the spec scenario's dry run returns the
state unchanged, and on a collision-free directory the dry and real
`Images` counts agree. -/
theorem dry_run_frame_witness :
    orgState (organize scenarioState default_file_extensions
      default_ignore_list true) = some scenarioState ∧
    orgCount (organize preparedDirState singleImageRules [] true) "Images"
      = orgCount (organize preparedDirState singleImageRules [] false)
          "Images" :=
  ⟨dry_run_frame.1 scenarioState default_file_extensions default_ignore_list
     (by decide),
   dry_run_frame.2 preparedDirState singleImageRules [] "d" rfl rfl
     (by decide) (by decide) (by decide) "Images"⟩
